import Mathlib

/-! # Wristband_IR: the timed carrier-transmission engine of `src/main.c`

A shallow embedding of `delay_us`, `ir_carrier_on`, `ir_carrier_off` and
`send_raw`, and the properties of the specification that concern them.

Conventions of the embedding.

* Machine integers are natural numbers; every place where the C code can
  wrap reduces modulo `2 ^ 32` explicitly (`sub32`, `mul32`, `or32`, `not32`,
  `and32`). An element of a `uint16_t` array is a `Fin 65536`.
* The device header `stm32l432xx.h` is not part of the sources, so the mask
  `TIM_CCER_CC1E` is a parameter (`cc1e`) of every function that uses it, and
  the global `SystemCoreClock` is the parameter `clock`.
* `DWT->CYCCNT` is a volatile hardware register: the values it returns are
  given by a tick source `cyccnt : Nat → Nat`, where `cyccnt k` is the value
  returned by the `k`-th read since power-up. The busy-wait loop of `delay_us`
  is bounded by a `fuel` argument (the largest number of polls a single call
  may perform).
* `send_raw` runs over a `World`: the peripheral registers, the number of
  counter reads served so far, and two logs (the calls issued, and the gate
  state during every wait).
* A result `none` of `delay_us` means the loop had not exited when the fuel
  ran out; a result `none` of `send_raw` means that, or a read of `raw[i]`
  outside the array. A result `some _` is a call that returned.
-/

namespace WristbandIR

/-! ## Machine arithmetic -/

/-- Subtraction of two `uint32_t`: `a - b` wraps modulo `2 ^ 32`. -/
def sub32 (a b : Nat) : Nat := (a % 4294967296 + 4294967296 - b % 4294967296) % 4294967296

/-- Multiplication of two `uint32_t`: `a * b` wraps modulo `2 ^ 32`. -/
def mul32 (a b : Nat) : Nat := (a * b) % 4294967296

/-- Bitwise or of two `uint32_t`. -/
def or32 (a b : Nat) : Nat := (a ||| b) % 4294967296

/-- Bitwise complement of a `uint32_t`: `~a`. -/
def not32 (a : Nat) : Nat := (a ^^^ 4294967295) % 4294967296

/-- Bitwise and of two `uint32_t`. -/
def and32 (a b : Nat) : Nat := (a &&& b) % 4294967296

/-- An element of a `uint16_t` array. -/
abbrev uint16_t : Type := Fin 65536

/-! ## `delay_us` -/

/-- The loop `while ((DWT->CYCCNT - start) < ticks) {}` of `delay_us`: `k` is
the index of the next read of the counter.  The result is the index of the
read whose value ended the loop. -/
def delay_us_loop (cyccnt : Nat → Nat) (start ticks : Nat) : Nat → Nat → Option Nat
  | 0, _ => none
  | fuel + 1, k =>
    if sub32 (cyccnt k) start < ticks then delay_us_loop cyccnt start ticks fuel (k + 1)
    else some k

/-- The tick target of `delay_us`: `us * (TIMER_CLOCK / 1000000U)` as a
`uint32_t`. -/
def delay_ticks (clock us : Nat) : Nat := mul32 us (clock / 1000000)

/-- The function `delay_us(us)`, called when `k` reads of the counter have
been served: the snapshot `start` is read number `k`, the polls are the
reads `k + 1`, `k + 2`, ...  The result is the index of the poll that ended
the wait. -/
def delay_us (clock : Nat) (cyccnt : Nat → Nat) (fuel : Nat) (us : Nat) (k : Nat) : Option Nat :=
  let start := cyccnt k
  let ticks := delay_ticks clock us
  delay_us_loop cyccnt start ticks fuel (k + 1)

/-! ## The carrier gate -/

/-- The peripheral registers that `main.c` writes. -/
structure Regs where
  RCC_AHB2ENR : Nat
  RCC_APB2ENR : Nat
  GPIOA_MODER : Nat
  GPIOA_AFR1 : Nat
  GPIOA_OSPEEDR : Nat
  GPIOA_OTYPER : Nat
  GPIOA_PUPDR : Nat
  TIM1_CR1 : Nat
  TIM1_CCMR1 : Nat
  TIM1_CCER : Nat
  TIM1_PSC : Nat
  TIM1_ARR : Nat
  TIM1_CCR1 : Nat
  TIM1_BDTR : Nat
  deriving DecidableEq, Repr

/-- The function `ir_carrier_on`: `TIM1->CCER |= TIM_CCER_CC1E`. -/
def ir_carrier_on (cc1e : Nat) (r : Regs) : Regs :=
  { r with TIM1_CCER := or32 r.TIM1_CCER cc1e }

/-- The function `ir_carrier_off`: `TIM1->CCER &= ~TIM_CCER_CC1E`. -/
def ir_carrier_off (cc1e : Nat) (r : Regs) : Regs :=
  { r with TIM1_CCER := and32 r.TIM1_CCER (not32 cc1e) }

/-- The carrier gate is enabled: `TIM1->CCER & TIM_CCER_CC1E` is not zero. -/
def gate_enabled (cc1e : Nat) (r : Regs) : Bool :=
  decide (r.TIM1_CCER &&& cc1e ≠ 0)

/-! ## `send_raw` -/

/-- A call issued by `send_raw`. -/
inductive Event where
  | carrier_on : Event
  | carrier_off : Event
  | delay_us (us : Nat) : Event
  deriving DecidableEq, Repr

/-- The state `send_raw` runs over. -/
structure World where
  /-- The peripheral registers. -/
  regs : Regs
  /-- The number of reads of `DWT->CYCCNT` served so far. -/
  reads : Nat
  /-- The calls issued so far, oldest first. -/
  trace : List Event
  /-- For every wait so far, the gate state during it and its duration. -/
  phases : List (Bool × Nat)
  deriving DecidableEq, Repr

/-- A call of `ir_carrier_on()`. -/
def call_carrier_on (cc1e : Nat) (w : World) : World :=
  { w with regs := ir_carrier_on cc1e w.regs, trace := w.trace ++ [Event.carrier_on] }

/-- A call of `ir_carrier_off()`. -/
def call_carrier_off (cc1e : Nat) (w : World) : World :=
  { w with regs := ir_carrier_off cc1e w.regs, trace := w.trace ++ [Event.carrier_off] }

/-- A call of `delay_us(us)`. -/
def call_delay_us (cc1e clock : Nat) (cyccnt : Nat → Nat) (fuel : Nat) (us : Nat) (w : World) :
    Option World :=
  (delay_us clock cyccnt fuel us w.reads).map fun k =>
    { w with
      reads := k + 1
      trace := w.trace ++ [Event.delay_us us]
      phases := w.phases ++ [(gate_enabled cc1e w.regs, us)] }

/-- The body of the loop of `send_raw` at index `i`; reading `raw[i]` outside
the array has no defined result. -/
def send_raw_body (cc1e clock : Nat) (cyccnt : Nat → Nat) (fuel : Nat) (raw : List uint16_t)
    (w : World) (i : Nat) : Option World :=
  let w1 := if i &&& 1 = 0 then call_carrier_on cc1e w else call_carrier_off cc1e w
  match raw[i]? with
  | none => none
  | some us => call_delay_us cc1e clock cyccnt fuel us.val w1

/-- The loop `for (int i = 0; i < len; i++)` of `send_raw`. -/
def send_raw_loop (cc1e clock : Nat) (cyccnt : Nat → Nat) (fuel : Nat) (raw : List uint16_t)
    (len : Int) (w : World) : Option World :=
  (List.range len.toNat).foldlM (send_raw_body cc1e clock cyccnt fuel raw) w

/-- The function `send_raw(raw, len)`. -/
def send_raw (cc1e clock : Nat) (cyccnt : Nat → Nat) (fuel : Nat) (raw : List uint16_t)
    (len : Int) (w : World) : Option World :=
  (send_raw_loop cc1e clock cyccnt fuel raw len w).map (call_carrier_off cc1e)

/-! ## Test doubles -/

/-- A counter that starts at `c0` and advances by one tick per read, wrapping
modulo `2 ^ 32`. -/
def ticking (c0 : Nat) : Nat → Nat := fun k => (c0 + k) % 4294967296

/-- A counter that reads the tick count `T` modulo `2 ^ 32`: a free-running
32-bit counter whose `k`-th read happens at tick `T k`. -/
def wrapping (T : Nat → Nat) : Nat → Nat := fun k => T k % 4294967296

/-- A register state with every register zero. -/
def regs0 : Regs :=
  { RCC_AHB2ENR := 0, RCC_APB2ENR := 0, GPIOA_MODER := 0, GPIOA_AFR1 := 0, GPIOA_OSPEEDR := 0,
    GPIOA_OTYPER := 0, GPIOA_PUPDR := 0, TIM1_CR1 := 0, TIM1_CCMR1 := 0, TIM1_CCER := 0,
    TIM1_PSC := 0, TIM1_ARR := 0, TIM1_CCR1 := 0, TIM1_BDTR := 0 }

/-- A world with registers `r`, no counter read served and empty logs. -/
def world0 (r : Regs) : World := { regs := r, reads := 0, trace := [], phases := [] }

/-! ## What the specification expects of `send_raw` -/

/-- The gate command of index `i`: `carrier_on` when `i` is even,
`carrier_off` when it is odd. -/
def gate_cmd (i : Nat) : Event :=
  if i % 2 = 0 then Event.carrier_on else Event.carrier_off

/-- The gate-command/wait steps for the intervals `ds`, the first of them at
index `i`: the command of the index, then a wait of the interval. -/
def steps_from : Nat → List uint16_t → List Event
  | _, [] => []
  | i, d :: ds => gate_cmd i :: Event.delay_us d.val :: steps_from (i + 1) ds

/-- The trace the specification gives for `transmit(raw)`: one step per
interval, then the forced `carrier_off`. -/
def expected_trace (raw : List uint16_t) : List Event :=
  steps_from 0 raw ++ [Event.carrier_off]

/-- The phases for the intervals `ds`, the first of them at index `i`: the
gate is enabled during the waits of even index. -/
def phases_from (cc1e : Nat) : Nat → List uint16_t → List (Bool × Nat)
  | _, [] => []
  | i, d :: ds =>
    (decide (i % 2 = 0) && decide (cc1e % 4294967296 ≠ 0), d.val) :: phases_from cc1e (i + 1) ds

/-- The registers after `n` iterations of the loop of `send_raw`. -/
def regs_after_loop (cc1e n : Nat) (r : Regs) : Regs :=
  if n = 0 then r else if n % 2 = 1 then ir_carrier_on cc1e r else ir_carrier_off cc1e r

/-! ## Predicates and concrete runs used below -/

/-- The run of scenario 1 on a counter at 1 tick per microsecond that wraps
during the first wait. -/
def scenario1_world : World :=
  { regs := regs0, reads := 2804,
    trace := [Event.carrier_on, Event.delay_us 700, Event.carrier_off, Event.delay_us 700,
      Event.carrier_on, Event.delay_us 700, Event.carrier_off, Event.delay_us 700,
      Event.carrier_off],
    phases := [(true, 700), (false, 700), (true, 700), (false, 700)] }

/-- The registers `regs0` with the value `v` in `TIM1->CCER`. -/
def regs_ccer (v : Nat) : Regs := { regs0 with TIM1_CCER := v }

/-- The run of scenario 3 from a state whose gate is enabled (`CCER = 0x1111`),
on a counter at 1 tick per microsecond. -/
def scenario3_world : World :=
  { regs := regs_ccer 0x1110, reads := 53,
    trace := [Event.carrier_on, Event.delay_us 38, Event.carrier_off, Event.delay_us 6,
      Event.carrier_on, Event.delay_us 6, Event.carrier_off],
    phases := [(true, 38), (false, 6), (true, 6)] }

/-- Two register states differ at most in the bits of `TIM1->CCER` that the
mask `cc1e` selects. -/
def same_but_cc1e (cc1e : Nat) (r r2 : Regs) : Prop :=
  r2 = { r with TIM1_CCER := r2.TIM1_CCER } ∧
    ∀ j, j < 32 → cc1e.testBit j = false → r2.TIM1_CCER.testBit j = r.TIM1_CCER.testBit j

/-- The state of scenario 3 at the end of the loop, before the forced
`carrier_off`. -/
def scenario3_loop_world : World :=
  { regs := regs_ccer 0x1111, reads := 53,
    trace := [Event.carrier_on, Event.delay_us 38, Event.carrier_off, Event.delay_us 6,
      Event.carrier_on, Event.delay_us 6],
    phases := [(true, 38), (false, 6), (true, 6)] }

/-- The state of scenario 1 at the end of the loop, before the forced
`carrier_off`. -/
def scenario1_loop_world : World :=
  { regs := regs0, reads := 2804,
    trace := [Event.carrier_on, Event.delay_us 700, Event.carrier_off, Event.delay_us 700,
      Event.carrier_on, Event.delay_us 700, Event.carrier_off, Event.delay_us 700],
    phases := [(true, 700), (false, 700), (true, 700), (false, 700)] }

/-- The run of `send_raw` on the single interval `65535`, on a counter that
advances `2 ^ 28` ticks per read. -/
def longest_interval_world : World :=
  { regs := regs0, reads := 3,
    trace := [Event.carrier_on, Event.delay_us 65535, Event.carrier_off],
    phases := [(true, 65535)] }

/-- The run of `send_raw` on `[2]` from `world0 regs0`, at 1 tick per
microsecond. -/
def run_2 : World :=
  { regs := regs0, reads := 3,
    trace := [Event.carrier_on, Event.delay_us 2, Event.carrier_off],
    phases := [(true, 2)] }

/-- The run of `send_raw` on `[3]` after `run_2`. -/
def run_2_then_3 : World :=
  { regs := regs0, reads := 7,
    trace := [Event.carrier_on, Event.delay_us 2, Event.carrier_off,
      Event.carrier_on, Event.delay_us 3, Event.carrier_off],
    phases := [(true, 2), (true, 3)] }

/-- The run of `send_raw` on `[2, 3]` from `world0 regs0`. -/
def run_2_3 : World :=
  { regs := regs0, reads := 7,
    trace := [Event.carrier_on, Event.delay_us 2, Event.carrier_off, Event.delay_us 3,
      Event.carrier_off],
    phases := [(true, 2), (false, 3)] }

/-- The run of `send_raw` on `[4, 1]` after `run_2_3`. -/
def run_2_3_then_4_1 : World :=
  { regs := regs0, reads := 14,
    trace := [Event.carrier_on, Event.delay_us 2, Event.carrier_off, Event.delay_us 3,
      Event.carrier_off, Event.carrier_on, Event.delay_us 4, Event.carrier_off,
      Event.delay_us 1, Event.carrier_off],
    phases := [(true, 2), (false, 3), (true, 4), (false, 1)] }

/-- The run of `send_raw` on `[2, 3, 4, 1]` from `world0 regs0`. -/
def run_2_3_4_1 : World :=
  { regs := regs0, reads := 14,
    trace := [Event.carrier_on, Event.delay_us 2, Event.carrier_off, Event.delay_us 3,
      Event.carrier_on, Event.delay_us 4, Event.carrier_off, Event.delay_us 1,
      Event.carrier_off],
    phases := [(true, 2), (false, 3), (true, 4), (false, 1)] }

/-! ## Bit-level facts -/

theorem testBit_or32 (a b j : Nat) :
    (or32 a b).testBit j = (decide (j < 32) && (a.testBit j || b.testBit j)) := by
  simp only [or32, show (4294967296 : Nat) = 2 ^ 32 by norm_num, Nat.testBit_mod_two_pow,
    Nat.testBit_or]

theorem testBit_not32 (a j : Nat) :
    (not32 a).testBit j = (decide (j < 32) && !a.testBit j) := by
  simp only [not32, show (4294967296 : Nat) = 2 ^ 32 by norm_num,
    show (4294967295 : Nat) = 2 ^ 32 - 1 by norm_num, Nat.testBit_mod_two_pow, Nat.testBit_xor,
    Nat.testBit_two_pow_sub_one]
  by_cases h : j < 32 <;> simp [h]

theorem testBit_and32 (a b j : Nat) :
    (and32 a b).testBit j = (decide (j < 32) && (a.testBit j && b.testBit j)) := by
  simp only [and32, show (4294967296 : Nat) = 2 ^ 32 by norm_num, Nat.testBit_mod_two_pow,
    Nat.testBit_and]

theorem testBit_mod32 (a j : Nat) :
    (a % 4294967296).testBit j = (decide (j < 32) && a.testBit j) := by
  simp only [show (4294967296 : Nat) = 2 ^ 32 by norm_num, Nat.testBit_mod_two_pow]

/-- Clearing the mask leaves none of its bits set. -/
theorem and32_not32_land (x m : Nat) : and32 x (not32 m) &&& m = 0 := by
  apply Nat.eq_of_testBit_eq
  intro j
  simp only [Nat.testBit_and, testBit_and32, testBit_not32, Nat.zero_testBit]
  cases x.testBit j <;> cases m.testBit j <;> simp

/-- Setting the mask sets exactly the bits of the mask that a register holds. -/
theorem or32_land (x m : Nat) : or32 x m &&& m = m % 4294967296 := by
  apply Nat.eq_of_testBit_eq
  intro j
  simp only [Nat.testBit_and, testBit_or32, testBit_mod32]
  cases x.testBit j <;> cases m.testBit j <;> simp

theorem and32_not32_idem (x m : Nat) :
    and32 (and32 x (not32 m)) (not32 m) = and32 x (not32 m) := by
  apply Nat.eq_of_testBit_eq
  intro j
  simp only [testBit_and32, testBit_not32]
  cases x.testBit j <;> cases m.testBit j <;> simp

theorem and32_not32_or32 (x m : Nat) :
    and32 (or32 x m) (not32 m) = and32 x (not32 m) := by
  apply Nat.eq_of_testBit_eq
  intro j
  simp only [testBit_and32, testBit_not32, testBit_or32]
  cases x.testBit j <;> cases m.testBit j <;> simp

theorem or32_and32_not32 (x m : Nat) :
    or32 (and32 x (not32 m)) m = or32 x m := by
  apply Nat.eq_of_testBit_eq
  intro j
  simp only [testBit_and32, testBit_not32, testBit_or32]
  cases x.testBit j <;> cases m.testBit j <;> simp

theorem or32_idem (x m : Nat) : or32 (or32 x m) m = or32 x m := by
  apply Nat.eq_of_testBit_eq
  intro j
  simp only [testBit_or32]
  cases x.testBit j <;> cases m.testBit j <;> simp

theorem off_off (m : Nat) (r : Regs) : ir_carrier_off m (ir_carrier_off m r) = ir_carrier_off m r := by
  simp [ir_carrier_off, and32_not32_idem]

theorem off_on (m : Nat) (r : Regs) : ir_carrier_off m (ir_carrier_on m r) = ir_carrier_off m r := by
  simp [ir_carrier_off, ir_carrier_on, and32_not32_or32]

theorem on_off (m : Nat) (r : Regs) : ir_carrier_on m (ir_carrier_off m r) = ir_carrier_on m r := by
  simp [ir_carrier_off, ir_carrier_on, or32_and32_not32]

theorem on_on (m : Nat) (r : Regs) : ir_carrier_on m (ir_carrier_on m r) = ir_carrier_on m r := by
  simp [ir_carrier_on, or32_idem]

theorem gate_enabled_off (m : Nat) (r : Regs) : gate_enabled m (ir_carrier_off m r) = false := by
  simp [gate_enabled, ir_carrier_off, and32_not32_land]

theorem gate_enabled_on (m : Nat) (r : Regs) :
    gate_enabled m (ir_carrier_on m r) = decide (m % 4294967296 ≠ 0) := by
  simp [gate_enabled, ir_carrier_on, or32_land]

/-! ## The busy-wait loop -/

theorem delay_ticks_lt (clock us : Nat) : delay_ticks clock us < 4294967296 := by
  unfold delay_ticks mul32
  omega

/-- The tick target of a 16-bit duration is the exact product, for every
32-bit clock frequency. -/
theorem delay_ticks_exact (clock us : Nat) (hclock : clock < 4294967296) (hus : us ≤ 65535) :
    delay_ticks clock us = us * (clock / 1000000) := by
  have hrate : clock / 1000000 ≤ 4294 := by omega
  have hprod : us * (clock / 1000000) ≤ 65535 * 4294 := Nat.mul_le_mul hus hrate
  unfold delay_ticks mul32
  exact Nat.mod_eq_of_lt (by omega)

/-- An exit of the polling loop, for any tick source: the exit poll is the
first one whose wrap-around difference from `start` reaches `ticks`. -/
theorem delay_us_loop_some (cyccnt : Nat → Nat) (start ticks : Nat) :
    ∀ (fuel k n : Nat), delay_us_loop cyccnt start ticks fuel k = some n →
      k ≤ n ∧ ticks ≤ sub32 (cyccnt n) start ∧
        ∀ j, k ≤ j → j < n → sub32 (cyccnt j) start < ticks := by
  intro fuel
  induction fuel with
  | zero => intro k n h; simp [delay_us_loop] at h
  | succ fuel ih =>
    intro k n h
    unfold delay_us_loop at h
    by_cases hc : sub32 (cyccnt k) start < ticks
    · rw [if_pos hc] at h
      obtain ⟨h1, h2, h3⟩ := ih (k + 1) n h
      refine ⟨by omega, h2, ?_⟩
      intro j hkj hjn
      by_cases hjk : j = k
      · subst hjk; exact hc
      · exact h3 j (by omega) hjn
    · rw [if_neg hc] at h
      cases h
      exact ⟨le_refl _, by omega, fun j h1 h2 => by omega⟩

/-- The difference of two unwrapped tick counts survives the wrap of the
counter, up to reduction modulo `2 ^ 32`. -/
theorem sub32_mod (a b : Nat) (h : b ≤ a) :
    sub32 (a % 4294967296) (b % 4294967296) = (a - b) % 4294967296 := by
  unfold sub32
  omega

theorem sub32_ticking (c0 k j : Nat) :
    sub32 (ticking c0 (k + j)) (ticking c0 k) = j % 4294967296 := by
  unfold sub32 ticking
  omega

/-- On a counter that advances by one tick per read the loop exits at poll
number `max 1 ticks` after the snapshot. -/
theorem delay_us_loop_ticking (c0 k ticks : Nat) (ht : ticks < 4294967296) :
    ∀ (fuel j : Nat), 1 ≤ j → j ≤ max 1 ticks → max 1 ticks < fuel + j →
      delay_us_loop (ticking c0) (ticking c0 k) ticks fuel (k + j) = some (k + max 1 ticks) := by
  intro fuel
  induction fuel with
  | zero => intro j h1 h2 h3; omega
  | succ fuel ih =>
    intro j h1 h2 h3
    unfold delay_us_loop
    rw [sub32_ticking]
    have hj : j % 4294967296 = j := Nat.mod_eq_of_lt (by omega)
    rw [hj]
    by_cases hc : j < ticks
    · rw [if_pos hc, Nat.add_assoc]
      exact ih (j + 1) (by omega) (by omega) (by omega)
    · rw [if_neg hc]
      have : j = max 1 ticks := by omega
      rw [← this]

theorem delay_us_ticking (clock c0 fuel us k : Nat) (hf : max 1 (delay_ticks clock us) ≤ fuel) :
    delay_us clock (ticking c0) fuel us k = some (k + max 1 (delay_ticks clock us)) := by
  unfold delay_us
  exact delay_us_loop_ticking c0 k _ (delay_ticks_lt clock us) fuel 1 (le_refl _) (by omega)
    (by omega)

/-! ## The loop of `send_raw` -/

theorem steps_from_append (ds es : List uint16_t) :
    ∀ i, steps_from i (ds ++ es) = steps_from i ds ++ steps_from (i + ds.length) es := by
  induction ds with
  | nil => intro i; simp [steps_from]
  | cons d ds ih =>
    intro i
    simp [steps_from, ih, Nat.add_assoc, Nat.add_comm 1]

theorem phases_from_append (cc1e : Nat) (ds es : List uint16_t) :
    ∀ i, phases_from cc1e i (ds ++ es) =
      phases_from cc1e i ds ++ phases_from cc1e (i + ds.length) es := by
  induction ds with
  | nil => intro i; simp [phases_from]
  | cons d ds ih =>
    intro i
    simp [phases_from, ih, Nat.add_assoc, Nat.add_comm 1]

/-- The gate state during the wait of index `n`. -/
theorem gate_enabled_step (cc1e n : Nat) (r : Regs) :
    gate_enabled cc1e
        (if n &&& 1 = 0 then ir_carrier_on cc1e (regs_after_loop cc1e n r)
          else ir_carrier_off cc1e (regs_after_loop cc1e n r)) =
      (decide (n % 2 = 0) && decide (cc1e % 4294967296 ≠ 0)) := by
  rw [Nat.and_one_is_mod]
  by_cases h : n % 2 = 0
  · simp [h, gate_enabled_on]
  · simp [h, gate_enabled_off]

theorem regs_after_loop_succ (cc1e n : Nat) (r : Regs) :
    (if n &&& 1 = 0 then ir_carrier_on cc1e (regs_after_loop cc1e n r)
      else ir_carrier_off cc1e (regs_after_loop cc1e n r)) = regs_after_loop cc1e (n + 1) r := by
  rw [Nat.and_one_is_mod]
  unfold regs_after_loop
  by_cases h0 : n = 0
  · subst h0; simp
  · by_cases h : n % 2 = 0
    · have h1 : (n + 1) % 2 = 1 := by omega
      simp [h, h0, h1, on_off]
    · have h1 : ¬ (n + 1) % 2 = 1 := by omega
      have h2 : n % 2 = 1 := by omega
      simp [h0, h1, h2, off_on]

theorem off_regs_after_loop (cc1e n : Nat) (r : Regs) :
    ir_carrier_off cc1e (regs_after_loop cc1e n r) = ir_carrier_off cc1e r := by
  unfold regs_after_loop
  split
  · rfl
  · split
    · exact off_on cc1e r
    · exact off_off cc1e r

/-- The state after `n` iterations of the loop, whatever the tick source: the
loop got that far only inside the array, issued the `n` steps of the first
`n` intervals, and left the registers as its last gate command did. -/
theorem loop_spec (cc1e clock : Nat) (cyccnt : Nat → Nat) (fuel : Nat) (raw : List uint16_t)
    (w : World) :
    ∀ (n : Nat) (w1 : World),
      (List.range n).foldlM (send_raw_body cc1e clock cyccnt fuel raw) w = some w1 →
        n ≤ raw.length ∧ w1.trace = w.trace ++ steps_from 0 (raw.take n) ∧
          w1.phases = w.phases ++ phases_from cc1e 0 (raw.take n) ∧
          w1.regs = regs_after_loop cc1e n w.regs := by
  intro n
  induction n with
  | zero =>
    intro w1 h
    simp at h
    subst h
    simp [steps_from, phases_from, regs_after_loop]
  | succ n ih =>
    intro w1 h
    rw [List.range_succ, List.foldlM_append] at h
    simp only [Option.bind_eq_bind, Option.bind_eq_some] at h
    obtain ⟨w0, h0, hb⟩ := h
    obtain ⟨hn, ht, hp, hr⟩ := ih w0 h0
    simp only [List.foldlM_cons, List.foldlM_nil, Option.bind_eq_bind, Option.bind_eq_some,
      Option.pure_def, Option.some.injEq, exists_eq_right] at hb
    unfold send_raw_body at hb
    cases hget : raw[n]? with
    | none => simp [hget] at hb
    | some us =>
      have hlt : n < raw.length := by
        by_contra hc
        rw [List.getElem?_eq_none (by omega)] at hget
        cases hget
      simp only [hget, call_delay_us, Option.map_eq_some'] at hb
      obtain ⟨k, -, hw⟩ := hb
      have htake : raw.take (n + 1) = raw.take n ++ [us] := by
        rw [List.take_succ, hget]; rfl
      have hlen : (raw.take n).length = n := by simp; omega
      subst hw
      refine ⟨hlt, ?_, ?_, ?_⟩
      · rw [htake, steps_from_append, hlen]
        by_cases hpar : n &&& 1 = 0
        · have : n % 2 = 0 := by rw [← Nat.and_one_is_mod]; exact hpar
          simp [hpar, call_carrier_on, ht, steps_from, gate_cmd, this]
        · have : ¬ n % 2 = 0 := by rw [← Nat.and_one_is_mod]; exact hpar
          simp [hpar, call_carrier_off, ht, steps_from, gate_cmd, this]
      · rw [htake, phases_from_append, hlen]
        have hg := gate_enabled_step cc1e n w.regs
        by_cases hpar : n &&& 1 = 0
        · have hm : n % 2 = 0 := by rw [← Nat.and_one_is_mod]; exact hpar
          simp only [hpar, if_true] at hg
          simp [hm, call_carrier_on, hp, phases_from, hr, hg]
        · have hm : ¬ n % 2 = 0 := by rw [← Nat.and_one_is_mod]; exact hpar
          simp only [hpar, if_false] at hg
          simp [hm, call_carrier_off, hp, phases_from, hr, hg]
      · have hs := regs_after_loop_succ cc1e n w.regs
        by_cases hpar : n &&& 1 = 0
        · have hm : n % 2 = 0 := by rw [← Nat.and_one_is_mod]; exact hpar
          simp only [hpar, if_true] at hs
          simp [hm, call_carrier_on, hr, hs]
        · have hm : ¬ n % 2 = 0 := by rw [← Nat.and_one_is_mod]; exact hpar
          simp only [hpar, if_false] at hs
          simp [hm, call_carrier_off, hr, hs]

/-- On a counter that advances by one tick per read, every iteration of the
loop inside the array returns. -/
theorem loop_returns (cc1e clock c0 : Nat) (raw : List uint16_t) :
    ∀ (n : Nat), n ≤ raw.length → ∀ (w : World), ∃ w1,
      (List.range n).foldlM (send_raw_body cc1e clock (ticking c0) 4294967296 raw) w =
        some w1 := by
  intro n
  induction n with
  | zero => intro _ w; exact ⟨w, by simp⟩
  | succ n ih =>
    intro hn w
    obtain ⟨w0, h0⟩ := ih (by omega) w
    rw [List.range_succ, List.foldlM_append]
    simp only [Option.bind_eq_bind, h0, Option.some_bind, List.foldlM_cons, List.foldlM_nil,
      Option.pure_def, Option.bind_some]
    have hget : raw[n]? = some raw[n] := List.getElem?_eq_getElem (by omega)
    have hd : ∀ k, delay_us clock (ticking c0) 4294967296 (raw[n]).val k =
        some (k + max 1 (delay_ticks clock (raw[n]).val)) := fun k =>
      delay_us_ticking clock c0 4294967296 _ k (by
        have := delay_ticks_lt clock (raw[n]).val
        omega)
    simp [send_raw_body, hget, call_delay_us, hd]

/-- What a return of `send_raw` means, whatever the tick source. -/
theorem send_raw_some (cc1e clock : Nat) (cyccnt : Nat → Nat) (fuel : Nat) (raw : List uint16_t)
    (len : Int) (w w2 : World)
    (h : send_raw cc1e clock cyccnt fuel raw len w = some w2) :
    len.toNat ≤ raw.length ∧
      w2.trace = w.trace ++ steps_from 0 (raw.take len.toNat) ++ [Event.carrier_off] ∧
      w2.phases = w.phases ++ phases_from cc1e 0 (raw.take len.toNat) ∧
      w2.regs = ir_carrier_off cc1e w.regs := by
  simp only [send_raw, send_raw_loop, Option.map_eq_some'] at h
  obtain ⟨w1, h1, hw⟩ := h
  obtain ⟨hn, ht, hp, hr⟩ := loop_spec cc1e clock cyccnt fuel raw w _ w1 h1
  subst hw
  refine ⟨hn, ?_, ?_, ?_⟩
  · simp [call_carrier_off, ht]
  · simp [call_carrier_off, hp]
  · simp [call_carrier_off, hr, off_regs_after_loop]

/-- On a counter that advances by one tick per read, `send_raw` returns for
every array and every `len` up to its length. -/
theorem send_raw_returns (cc1e clock c0 : Nat) (raw : List uint16_t) (len : Int)
    (hlen : len.toNat ≤ raw.length) (w : World) :
    ∃ w2, send_raw cc1e clock (ticking c0) 4294967296 raw len w = some w2 := by
  obtain ⟨w1, h1⟩ := loop_returns cc1e clock c0 raw len.toNat hlen w
  exact ⟨call_carrier_off cc1e w1, by simp [send_raw, send_raw_loop, h1]⟩

theorem steps_from_length (ds : List uint16_t) :
    ∀ i, (steps_from i ds).length = 2 * ds.length := by
  induction ds with
  | nil => intro i; simp [steps_from]
  | cons d ds ih => intro i; simp [steps_from, ih]; omega

/-- Step `j` of `steps_from i ds` is the gate command of index `i + j` followed
by the wait of the interval `ds[j]`. -/
theorem steps_from_getElem? (ds : List uint16_t) :
    ∀ (i j : Nat) (h : j < ds.length),
      (steps_from i ds)[2 * j]? = some (gate_cmd (i + j)) ∧
        (steps_from i ds)[2 * j + 1]? = some (Event.delay_us (ds[j]).val) := by
  induction ds with
  | nil => intro i j h; simp at h
  | cons d ds ih =>
    intro i j h
    cases j with
    | zero => simp [steps_from]
    | succ j =>
      have hj : j < ds.length := by simpa using h
      obtain ⟨h1, h2⟩ := ih (i + 1) j hj
      have e1 : 2 * (j + 1) = (2 * j + 1) + 1 := by omega
      have e2 : 2 * (j + 1) + 1 = (2 * j + 1 + 1) + 1 := by omega
      have e3 : i + 1 + j = i + (j + 1) := by omega
      refine ⟨?_, ?_⟩
      · rw [e1]; simp only [steps_from, List.getElem?_cons_succ]; rw [h1, e3]
      · rw [e2]; simp only [steps_from, List.getElem?_cons_succ, List.getElem_cons_succ]
        rw [h2]

/-- The trace of `send_raw` on a whole array, whatever the tick source. -/
theorem send_raw_trace_eq (cc1e clock : Nat) (cyccnt : Nat → Nat) (fuel : Nat)
    (raw : List uint16_t) (w w2 : World)
    (h : send_raw cc1e clock cyccnt fuel raw raw.length w = some w2) :
    w2.trace = w.trace ++ expected_trace raw := by
  obtain ⟨-, ht, -, -⟩ := send_raw_some cc1e clock cyccnt fuel raw _ w w2 h
  simpa [expected_trace, List.append_assoc] using ht

/-! ## Return of `send_raw` on a free-running counter -/

theorem strict_ticks_le (T : Nat → Nat) (hT : ∀ i, T i < T (i + 1)) (k : Nat) :
    ∀ i, T k + i ≤ T (k + i) := by
  intro i
  induction i with
  | zero => simp
  | succ i ih =>
    have h1 := hT (k + i)
    show T k + (i + 1) ≤ T (k + i + 1)
    omega

/-- On a counter that advances by at least one and at most `s` ticks from one
read to the next, the polling loop exits, provided `ticks + s` stays below
`2 ^ 32`. -/
theorem delay_us_loop_returns (T : Nat → Nat) (s k ticks : Nat) (hT : ∀ i, T i < T (i + 1))
    (hgap : ∀ i, T (i + 1) ≤ T i + s) (hfit : ticks + s < 4294967296) :
    ∀ (fuel i : Nat), T (k + i) - T k < max 1 ticks → max 1 ticks ≤ fuel + i →
      ∃ n, delay_us_loop (wrapping T) (wrapping T k) ticks fuel (k + i + 1) = some n := by
  intro fuel
  induction fuel with
  | zero =>
    intro i h1 h2
    have := strict_ticks_le T hT k i
    omega
  | succ fuel ih =>
    intro i h1 h2
    have hlo : T k + (i + 1) ≤ T (k + i + 1) := strict_ticks_le T hT k (i + 1)
    have hhi := hgap (k + i)
    have hmid := strict_ticks_le T hT k i
    unfold delay_us_loop
    have hsub : sub32 (wrapping T (k + i + 1)) (wrapping T k) = T (k + i + 1) - T k := by
      unfold wrapping
      rw [sub32_mod _ _ (by omega)]
      exact Nat.mod_eq_of_lt (by omega)
    rw [hsub]
    by_cases hc : T (k + i + 1) - T k < ticks
    · rw [if_pos hc]
      have hnext : T (k + (i + 1)) - T k < max 1 ticks := by
        show T (k + i + 1) - T k < max 1 ticks
        omega
      exact ih (i + 1) hnext (by omega)
    · rw [if_neg hc]
      exact ⟨_, rfl⟩

/-- On a counter that advances by at least one and at most `2 ^ 31` ticks
from one read to the next, at any 32-bit clock frequency, `send_raw` returns
for every array and every `len` up to its length. -/
theorem send_raw_returns_free_running (cc1e clock : Nat) (T : Nat → Nat)
    (hclock : clock < 4294967296) (hT : ∀ i, T i < T (i + 1))
    (hgap : ∀ i, T (i + 1) ≤ T i + 2147483648) (raw : List uint16_t) (len : Int)
    (hlen : len.toNat ≤ raw.length) (w : World) :
    ∃ w2, send_raw cc1e clock (wrapping T) 4294967296 raw len w = some w2 := by
  have hloop : ∀ (n : Nat), n ≤ raw.length → ∃ w1,
      (List.range n).foldlM (send_raw_body cc1e clock (wrapping T) 4294967296 raw) w =
        some w1 := by
    intro n
    induction n with
    | zero => intro _; exact ⟨w, by simp⟩
    | succ n ih =>
      intro hn
      obtain ⟨w0, h0⟩ := ih (by omega)
      rw [List.range_succ, List.foldlM_append]
      simp only [Option.bind_eq_bind, h0, Option.some_bind, List.foldlM_cons, List.foldlM_nil,
        Option.pure_def, Option.bind_some]
      have hget : raw[n]? = some raw[n] := List.getElem?_eq_getElem (by omega)
      have hd : ∀ k, ∃ m, delay_us clock (wrapping T) 4294967296 (raw[n]).val k = some m := by
        intro k
        have hus : (raw[n]).val ≤ 65535 := by have := (raw[n]).isLt; omega
        have hex := delay_ticks_exact clock _ hclock hus
        have hrate : clock / 1000000 ≤ 4294 := by omega
        have hprod : (raw[n]).val * (clock / 1000000) ≤ 65535 * 4294 :=
          Nat.mul_le_mul hus hrate
        have hlt := delay_ticks_lt clock (raw[n]).val
        unfold delay_us
        exact delay_us_loop_returns T 2147483648 k _ hT hgap (by omega) 4294967296 0
          (by simp) (by omega)
      simp only [send_raw_body, hget, call_delay_us]
      split
      · obtain ⟨m, hm⟩ := hd (call_carrier_on cc1e w0).reads
        exact ⟨_, by rw [hm]; rfl⟩
      · obtain ⟨m, hm⟩ := hd (call_carrier_off cc1e w0).reads
        exact ⟨_, by rw [hm]; rfl⟩
  obtain ⟨w1, h1⟩ := hloop len.toNat hlen
  exact ⟨call_carrier_off cc1e w1, by simp [send_raw, send_raw_loop, h1]⟩

/-! ## C1: the trace of `send_raw` -/

/-- C1: for every interval sequence `raw` of length `n`, whatever the tick
source, a call of `send_raw` that returns has issued exactly the trace
`expected_trace raw`; the call does return on a counter that advances one
tick per read, and, at a 32-bit clock frequency, on every free-running counter
that advances between 1 and `2 ^ 31` ticks from one read to the next; and
`expected_trace raw` has `2 * n + 1` entries: at positions `2 * i` and
`2 * i + 1` the gate command of index `i` (`carrier_on` for even `i`,
`carrier_off` for odd `i`) and the wait `delay_us(raw[i])`, and at position
`2 * n` the single forced `carrier_off`. -/
theorem send_raw_trace (cc1e clock : Nat) (raw : List uint16_t) (w : World) :
    (∀ (cyccnt : Nat → Nat) (fuel : Nat) (w2 : World),
        send_raw cc1e clock cyccnt fuel raw raw.length w = some w2 →
          w2.trace = w.trace ++ expected_trace raw) ∧
    (∀ c0 : Nat, ∃ w2,
        send_raw cc1e clock (ticking c0) 4294967296 raw raw.length w = some w2 ∧
          w2.trace = w.trace ++ expected_trace raw) ∧
    (∀ T : Nat → Nat, clock < 4294967296 → (∀ i, T i < T (i + 1)) →
        (∀ i, T (i + 1) ≤ T i + 2147483648) → ∃ w2,
          send_raw cc1e clock (wrapping T) 4294967296 raw raw.length w = some w2 ∧
            w2.trace = w.trace ++ expected_trace raw) ∧
    (expected_trace raw).length = 2 * raw.length + 1 ∧
    (∀ (i : Nat) (h : i < raw.length),
        (expected_trace raw)[2 * i]? =
            some (if i % 2 = 0 then Event.carrier_on else Event.carrier_off) ∧
          (expected_trace raw)[2 * i + 1]? = some (Event.delay_us (raw[i]).val)) ∧
    (expected_trace raw)[2 * raw.length]? = some Event.carrier_off := by
  refine ⟨fun cyccnt fuel w2 h => send_raw_trace_eq cc1e clock cyccnt fuel raw w w2 h, ?_, ?_, ?_,
    ?_, ?_⟩
  · intro c0
    obtain ⟨w2, h⟩ := send_raw_returns cc1e clock c0 raw raw.length (by simp) w
    exact ⟨w2, h, send_raw_trace_eq cc1e clock _ _ raw w w2 h⟩
  · intro T hclock hT hgap
    obtain ⟨w2, h⟩ :=
      send_raw_returns_free_running cc1e clock T hclock hT hgap raw raw.length (by simp) w
    exact ⟨w2, h, send_raw_trace_eq cc1e clock _ _ raw w w2 h⟩
  · simp [expected_trace, steps_from_length]
  · intro i h
    obtain ⟨h1, h2⟩ := steps_from_getElem? raw 0 i h
    have hl := steps_from_length raw 0
    unfold expected_trace
    rw [List.getElem?_append_left (by omega), List.getElem?_append_left (by omega), h1, h2]
    simp [gate_cmd]
  · have hl := steps_from_length raw 0
    unfold expected_trace
    rw [List.getElem?_append_right (by omega)]
    simp [hl]

set_option maxRecDepth 100000 in
/-- Scenario 1 and scenario 2 of the specification, as instances of
`send_raw_trace`: the trace of `[700,700,700,700]` is on, 700, off, 700, on,
700, off, 700, off, also at 80 MHz on a counter that advances 5 ticks per
read, and the trace of the empty sequence is the forced off alone. -/
theorem send_raw_trace_witness :
    send_raw 1 1000000 (ticking 4294967290) 700 [700, 700, 700, 700] 4 (world0 regs0) =
        some scenario1_world ∧
      scenario1_world.trace = [] ++ expected_trace [700, 700, 700, 700] ∧
      expected_trace [700, 700, 700, 700] =
        [Event.carrier_on, Event.delay_us 700, Event.carrier_off, Event.delay_us 700,
          Event.carrier_on, Event.delay_us 700, Event.carrier_off, Event.delay_us 700,
          Event.carrier_off] ∧
      (2 < 4 ∧ (expected_trace [700, 700, 700, 700])[2 * 2]? = some Event.carrier_on ∧
        (expected_trace [700, 700, 700, 700])[2 * 2 + 1]? = some (Event.delay_us 700)) ∧
      (∃ w2, send_raw 1 80000000 (wrapping (fun k => 4294967000 + 5 * k)) 4294967296
          [700, 700, 700, 700] 4 (world0 regs0) = some w2 ∧
        w2.trace = [] ++ expected_trace [700, 700, 700, 700]) ∧
      (∃ w2, send_raw 1 80000000 (ticking 0) 4294967296 [] 0 (world0 regs0) = some w2 ∧
        w2.trace = [] ++ [Event.carrier_off]) :=
  ⟨by decide,
    (send_raw_trace 1 1000000 [700, 700, 700, 700] (world0 regs0)).1 (ticking 4294967290) 700
      scenario1_world (by decide),
    by decide,
    ⟨by decide,
      (send_raw_trace 1 1000000 [700, 700, 700, 700] (world0 regs0)).2.2.2.2.1 2 (by decide)⟩,
    (send_raw_trace 1 80000000 [700, 700, 700, 700] (world0 regs0)).2.2.1
      (fun k => 4294967000 + 5 * k) (by decide)
      (fun i => by show 4294967000 + 5 * i < 4294967000 + 5 * (i + 1); omega)
      (fun i => by show 4294967000 + 5 * (i + 1) ≤ 4294967000 + 5 * i + 2147483648; omega),
    (send_raw_trace 1 80000000 [] (world0 regs0)).2.1 0⟩

/-! ## C2: the gate is disabled when `send_raw` returns -/

/-- C2: for every interval sequence, every `len` and every register state
before the call, whatever the tick source, the `CC1E` bits of `TIM1->CCER` are
clear when `send_raw` returns; on a counter that advances one tick per read it
returns for every `len` up to the length of the array; and for a non-positive
`len` it returns on every tick source, having only switched the gate off. -/
theorem send_raw_gate_off (cc1e clock : Nat) (raw : List uint16_t) (w : World) :
    (∀ (cyccnt : Nat → Nat) (fuel : Nat) (len : Int) (w2 : World),
        send_raw cc1e clock cyccnt fuel raw len w = some w2 →
          w2.regs.TIM1_CCER &&& cc1e = 0 ∧ gate_enabled cc1e w2.regs = false) ∧
    (∀ (c0 : Nat) (len : Int), len.toNat ≤ raw.length → ∃ w2,
        send_raw cc1e clock (ticking c0) 4294967296 raw len w = some w2 ∧
          w2.regs.TIM1_CCER &&& cc1e = 0) ∧
    (∀ (cyccnt : Nat → Nat) (fuel : Nat) (len : Int), len ≤ 0 →
        send_raw cc1e clock cyccnt fuel raw len w = some (call_carrier_off cc1e w)) := by
  have key : ∀ (cyccnt : Nat → Nat) (fuel : Nat) (len : Int) (w2 : World),
      send_raw cc1e clock cyccnt fuel raw len w = some w2 → w2.regs.TIM1_CCER &&& cc1e = 0 := by
    intro cyccnt fuel len w2 h
    obtain ⟨-, -, -, hr⟩ := send_raw_some cc1e clock cyccnt fuel raw len w w2 h
    rw [hr]
    exact and32_not32_land _ _
  refine ⟨fun cyccnt fuel len w2 h => ⟨key cyccnt fuel len w2 h, ?_⟩, ?_, ?_⟩
  · simp [gate_enabled, key cyccnt fuel len w2 h]
  · intro c0 len hlen
    obtain ⟨w2, h⟩ := send_raw_returns cc1e clock c0 raw len hlen w
    exact ⟨w2, h, key _ _ len w2 h⟩
  · intro cyccnt fuel len hlen
    have h0 : len.toNat = 0 := by omega
    simp [send_raw, send_raw_loop, h0]

/-- Instances of `send_raw_gate_off`: scenario 3 from an enabled gate, an
oversized array with `len = 2`, and `len = -1`. -/
theorem send_raw_gate_off_witness :
    send_raw 1 1000000 (ticking 4294967290) 64 [38, 6, 6] 3 (world0 (regs_ccer 0x1111)) =
        some scenario3_world ∧
      (scenario3_world.regs.TIM1_CCER &&& 1 = 0 ∧ gate_enabled 1 scenario3_world.regs = false) ∧
      (∃ w2, send_raw 1 80000000 (ticking 0) 4294967296 [38, 6, 6] 2
          (world0 (regs_ccer 0x1111)) = some w2 ∧ w2.regs.TIM1_CCER &&& 1 = 0) ∧
      send_raw 1 80000000 (fun _ => 0) 0 [38, 6, 6] (-1) (world0 (regs_ccer 0x1111)) =
        some (call_carrier_off 1 (world0 (regs_ccer 0x1111))) :=
  ⟨by decide,
    (send_raw_gate_off 1 1000000 [38, 6, 6] (world0 (regs_ccer 0x1111))).1 (ticking 4294967290) 64
      3 scenario3_world (by decide),
    (send_raw_gate_off 1 80000000 [38, 6, 6] (world0 (regs_ccer 0x1111))).2.1 0 2 (by decide),
    (send_raw_gate_off 1 80000000 [38, 6, 6] (world0 (regs_ccer 0x1111))).2.2 (fun _ => 0) 0 (-1)
      (by decide)⟩

/-! ## C6: `ir_carrier_off` is idempotent -/

/-- C6: for every register state and every value of the mask, applying
`ir_carrier_off` twice yields exactly the state that applying it once yields. -/
theorem ir_carrier_off_idempotent (cc1e : Nat) (r : Regs) :
    ir_carrier_off cc1e (ir_carrier_off cc1e r) = ir_carrier_off cc1e r :=
  off_off cc1e r

/-! ## C7: only the `CC1E` bits of `TIM1->CCER` change -/

theorem same_but_cc1e_refl (cc1e : Nat) (r : Regs) : same_but_cc1e cc1e r r :=
  ⟨rfl, fun _ _ _ => rfl⟩

theorem same_but_cc1e_on (cc1e : Nat) (r : Regs) : same_but_cc1e cc1e r (ir_carrier_on cc1e r) := by
  refine ⟨rfl, ?_⟩
  intro j hj hm
  simp [ir_carrier_on, testBit_or32, hj, hm]

theorem same_but_cc1e_off (cc1e : Nat) (r : Regs) :
    same_but_cc1e cc1e r (ir_carrier_off cc1e r) := by
  refine ⟨rfl, ?_⟩
  intro j hj hm
  simp [ir_carrier_off, testBit_and32, testBit_not32, hj, hm]

theorem same_but_cc1e_loop (cc1e n : Nat) (r : Regs) :
    same_but_cc1e cc1e r (regs_after_loop cc1e n r) := by
  unfold regs_after_loop
  split
  · exact same_but_cc1e_refl cc1e r
  · split
    · exact same_but_cc1e_on cc1e r
    · exact same_but_cc1e_off cc1e r

/-- C7: for every register state `r` and every bit `j` of `TIM1->CCER` outside
the mask `TIM_CCER_CC1E`, each of `ir_carrier_on` and `ir_carrier_off`, every
prefix of the loop of `send_raw` and `send_raw` itself, on every array, every
`len` and every tick source, leave `PSC`, `ARR`, `CCR1`, `CR1`, `CCMR1`, `BDTR`
and every register other than `TIM1->CCER` as they were, and leave bit `j` of
`TIM1->CCER` as it was. -/
theorem send_raw_frame (cc1e : Nat) (w : World) (j : Nat) (hj : j < 32)
    (hm : cc1e.testBit j = false) :
    (ir_carrier_on cc1e w.regs =
        { w.regs with TIM1_CCER := (ir_carrier_on cc1e w.regs).TIM1_CCER } ∧
      (ir_carrier_on cc1e w.regs).TIM1_CCER.testBit j = w.regs.TIM1_CCER.testBit j) ∧
    (ir_carrier_off cc1e w.regs =
        { w.regs with TIM1_CCER := (ir_carrier_off cc1e w.regs).TIM1_CCER } ∧
      (ir_carrier_off cc1e w.regs).TIM1_CCER.testBit j = w.regs.TIM1_CCER.testBit j) ∧
    (∀ (clock : Nat) (cyccnt : Nat → Nat) (fuel : Nat) (raw : List uint16_t) (len : Int)
        (w2 : World),
        (send_raw_loop cc1e clock cyccnt fuel raw len w = some w2 ∨
            send_raw cc1e clock cyccnt fuel raw len w = some w2) →
          w2.regs = { w.regs with TIM1_CCER := w2.regs.TIM1_CCER } ∧
            (w2.regs.TIM1_PSC = w.regs.TIM1_PSC ∧ w2.regs.TIM1_ARR = w.regs.TIM1_ARR ∧
              w2.regs.TIM1_CCR1 = w.regs.TIM1_CCR1) ∧
            (w2.regs.TIM1_CR1 = w.regs.TIM1_CR1 ∧ w2.regs.TIM1_CCMR1 = w.regs.TIM1_CCMR1 ∧
              w2.regs.TIM1_BDTR = w.regs.TIM1_BDTR) ∧
            w2.regs.TIM1_CCER.testBit j = w.regs.TIM1_CCER.testBit j) := by
  refine ⟨⟨rfl, (same_but_cc1e_on cc1e w.regs).2 j hj hm⟩,
    ⟨rfl, (same_but_cc1e_off cc1e w.regs).2 j hj hm⟩, ?_⟩
  intro clock cyccnt fuel raw len w2 h
  have hs : same_but_cc1e cc1e w.regs w2.regs := by
    rcases h with h | h
    · obtain ⟨-, -, -, hr⟩ := loop_spec cc1e clock cyccnt fuel raw w _ w2 h
      rw [hr]
      exact same_but_cc1e_loop cc1e _ w.regs
    · obtain ⟨-, -, -, hr⟩ := send_raw_some cc1e clock cyccnt fuel raw len w w2 h
      rw [hr]
      exact same_but_cc1e_off cc1e w.regs
  obtain ⟨h1, h2⟩ := hs
  refine ⟨h1, ?_, ?_, h2 j hj hm⟩
  · rw [h1]; exact ⟨rfl, rfl, rfl⟩
  · rw [h1]; exact ⟨rfl, rfl, rfl⟩

/-- An instance of `send_raw_frame`: scenario 3 from `CCER = 0x1111` with the
mask `0x1` ends with `CCER = 0x1110`, bit 4 untouched. -/
theorem send_raw_frame_witness :
    (4 < 32 ∧ Nat.testBit 1 4 = false) ∧
      send_raw 1 1000000 (ticking 4294967290) 64 [38, 6, 6] 3 (world0 (regs_ccer 0x1111)) =
        some scenario3_world ∧
      scenario3_world.regs.TIM1_CCER.testBit 4 = (regs_ccer 0x1111).TIM1_CCER.testBit 4 :=
  ⟨by decide, by decide,
    ((send_raw_frame 1 (world0 (regs_ccer 0x1111)) 4 (by decide) (by decide)).2.2 1000000
      (ticking 4294967290) 64 [38, 6, 6] 3 scenario3_world (Or.inr (by decide))).2.2.2⟩

/-! ## C8: the gate at the end of the loop -/

/-- C8: for every non-empty interval sequence and every non-zero mask
`TIM_CCER_CC1E`, whatever the tick source, the gate at the end of the loop of
`send_raw` is enabled exactly when the length is odd; for an odd length the
forced `carrier_off` takes the gate from enabled to disabled, for an even
length it leaves the registers as they are; `send_raw` is that loop followed
by the forced `carrier_off`, and on a counter that advances one tick per read
the loop returns. -/
theorem send_raw_loop_gate (cc1e clock : Nat) (raw : List uint16_t) (w : World)
    (hne : raw ≠ []) (hm : cc1e % 4294967296 ≠ 0) :
    (∀ (cyccnt : Nat → Nat) (fuel : Nat) (w1 : World),
        send_raw_loop cc1e clock cyccnt fuel raw raw.length w = some w1 →
          gate_enabled cc1e w1.regs = decide (raw.length % 2 = 1) ∧
            (raw.length % 2 = 1 →
              gate_enabled cc1e w1.regs = true ∧
                gate_enabled cc1e (call_carrier_off cc1e w1).regs = false) ∧
            (raw.length % 2 = 0 → (call_carrier_off cc1e w1).regs = w1.regs) ∧
            send_raw cc1e clock cyccnt fuel raw raw.length w =
              some (call_carrier_off cc1e w1)) ∧
    (∀ c0 : Nat, ∃ w1,
        send_raw_loop cc1e clock (ticking c0) 4294967296 raw raw.length w = some w1) := by
  have hpos : raw.length ≠ 0 := by
    intro h
    exact hne (List.length_eq_zero.mp h)
  refine ⟨?_, ?_⟩
  · intro cyccnt fuel w1 h
    have hsend : send_raw cc1e clock cyccnt fuel raw raw.length w =
        some (call_carrier_off cc1e w1) := by
      simp [send_raw, h]
    obtain ⟨-, -, -, hr⟩ := loop_spec cc1e clock cyccnt fuel raw w _ w1 h
    simp only [Int.toNat_ofNat] at hr
    have hoff : gate_enabled cc1e (call_carrier_off cc1e w1).regs = false := by
      simp [call_carrier_off, gate_enabled_off]
    by_cases hodd : raw.length % 2 = 1
    · have hg : gate_enabled cc1e w1.regs = true := by
        rw [hr]
        simp [regs_after_loop, hpos, hodd, gate_enabled_on, hm]
      refine ⟨by simp [hg, hodd], fun _ => ⟨hg, hoff⟩, fun h0 => by omega, hsend⟩
    · have hg : gate_enabled cc1e w1.regs = false := by
        rw [hr]
        simp [regs_after_loop, hpos, hodd, gate_enabled_off]
      refine ⟨by simp [hg, hodd], fun h1 => absurd h1 hodd, fun _ => ?_, hsend⟩
      simp only [call_carrier_off]
      rw [hr]
      simp [regs_after_loop, hpos, hodd, off_off]
  · intro c0
    obtain ⟨w1, h1⟩ := loop_returns cc1e clock c0 raw raw.length (le_refl _) w
    exact ⟨w1, by simpa [send_raw_loop] using h1⟩

set_option maxRecDepth 100000 in
/-- Instances of `send_raw_loop_gate`: `[38,6,6]` leaves the loop with the
gate enabled and the forced `carrier_off` disables it; `[700,700,700,700]`
leaves the loop with the gate disabled and the forced `carrier_off` changes no
register. -/
theorem send_raw_loop_gate_witness :
    (([38, 6, 6] : List uint16_t) ≠ [] ∧ 1 % 4294967296 ≠ 0) ∧
      (send_raw_loop 1 1000000 (ticking 4294967290) 64 [38, 6, 6] 3 (world0 (regs_ccer 0x1111)) =
          some scenario3_loop_world ∧
        gate_enabled 1 scenario3_loop_world.regs = true ∧
        gate_enabled 1 (call_carrier_off 1 scenario3_loop_world).regs = false) ∧
      (send_raw_loop 1 1000000 (ticking 4294967290) 700 [700, 700, 700, 700] 4 (world0 regs0) =
          some scenario1_loop_world ∧
        (call_carrier_off 1 scenario1_loop_world).regs = scenario1_loop_world.regs) :=
  ⟨⟨by decide, by decide⟩,
    ⟨by decide,
      (((send_raw_loop_gate 1 1000000 [38, 6, 6] (world0 (regs_ccer 0x1111)) (by decide)
        (by decide)).1 (ticking 4294967290) 64 scenario3_loop_world (by decide)).2.1
          (by decide))⟩,
    ⟨by decide,
      ((send_raw_loop_gate 1 1000000 [700, 700, 700, 700] (world0 regs0) (by decide)
        (by decide)).1 (ticking 4294967290) 700 scenario1_loop_world (by decide)).2.2.1
          (by decide)⟩⟩

/-! ## C3: `delay_us` does not return early -/

/-- C3 as stated fails: at 80 MHz the duration `53687092` microseconds is a
32-bit value, yet `53687092 * 80` wraps to `64`, and on the monotonic counter
that advances one tick per read `delay_us` returns at poll 64, when 64 ticks
have elapsed and not `53687092 * 80`. -/
theorem delay_us_early_counterexample :
    Monotone (fun i : Nat => i) ∧ 53687092 < 4294967296 ∧
      delay_us 80000000 (fun i => i % 4294967296) 64 53687092 0 = some 64 ∧
      ¬ (53687092 * (80000000 / 1000000) ≤ (fun i : Nat => i) 64 - (fun i : Nat => i) 0) :=
  ⟨fun _ _ h => h, by decide, by decide, by decide⟩

/-- C3, amended: let the counter be a monotonic wrapping 32-bit tick source
(read `i` returns `T i` modulo `2 ^ 32` for a monotone tick count `T`). A call
of `delay_us(d)` that returns at poll `n` has polled after its snapshot, and
between the snapshot and that poll at least the 32-bit tick target
`(d * (clock / 1000000)) mod 2 ^ 32` has elapsed; when `d * (clock / 1000000)`
fits in 32 bits that is at least `d` microseconds of ticks. -/
theorem delay_us_not_early (clock d fuel k n : Nat) (cyccnt T : Nat → Nat)
    (hmono : Monotone T) (hsrc : ∀ i, cyccnt i = T i % 4294967296)
    (hret : delay_us clock cyccnt fuel d k = some n) :
    k < n ∧ (d * (clock / 1000000)) % 4294967296 ≤ T n - T k ∧
      (d * (clock / 1000000) < 4294967296 → d * (clock / 1000000) ≤ T n - T k) := by
  unfold delay_us at hret
  obtain ⟨hkn, hge, -⟩ := delay_us_loop_some cyccnt _ _ fuel (k + 1) n hret
  have hle : T k ≤ T n := hmono (by omega)
  rw [hsrc n, hsrc k, sub32_mod _ _ hle] at hge
  unfold delay_ticks mul32 at hge
  have hmod := Nat.mod_le (T n - T k) 4294967296
  refine ⟨by omega, by omega, fun hfit => ?_⟩
  rw [Nat.mod_eq_of_lt hfit] at hge
  omega

/-- An instance of `delay_us_not_early`: 3 microseconds at 10 ticks per
microsecond on a counter that wraps during the wait. -/
theorem delay_us_not_early_witness :
    delay_us 10000000 (ticking 4294967290) 30 3 0 = some 30 ∧
      3 * (10000000 / 1000000) < 4294967296 ∧
      3 * (10000000 / 1000000) ≤ (4294967290 + 30) - (4294967290 + 0) :=
  ⟨by decide, by decide,
    (delay_us_not_early 10000000 3 30 0 30 (ticking 4294967290) (fun i => 4294967290 + i)
      (fun _ _ h => Nat.add_le_add_left h _) (fun _ => rfl) (by decide)).2.2 (by decide)⟩

/-! ## C4: `delay_us` on a wrapping counter at 10 ticks per microsecond -/

/-- C4 as stated fails at `d = 0`: on the counter that advances one tick per
read, started at `2 ^ 32 - 1`, `delay_us(0)` exits on its first comparison
(poll 1), and by then the counter has wrapped to `0` and one tick has elapsed
since the snapshot, not `10 * 0`. -/
theorem delay_us_zero_counterexample :
    delay_us 10000000 (ticking 4294967295) 1 0 0 = some 1 ∧
      ticking 4294967295 0 = 4294967295 ∧ ticking 4294967295 1 = 0 ∧
      sub32 (ticking 4294967295 1) (ticking 4294967295 0) = 1 ∧
      ¬ (sub32 (ticking 4294967295 1) (ticking 4294967295 0) = 10 * 0) :=
  ⟨by decide, by decide, by decide, by decide, by decide⟩

/-- C4, amended: on a 32-bit counter that advances one tick per read and
wraps, at 10 ticks per microsecond, for every start value and every `d` with
`10 * d < 2 ^ 32`, `delay_us(d)` returns; the poll `n` it returns at is the
first whose wrap-around difference from the snapshot is at least `10 * d`;
that difference, which is the number of ticks elapsed, is `max 1 (10 * d)`:
exactly `10 * d` for `d ≥ 1`, and for `d = 0` the call exits on its first
comparison, one tick after the snapshot. -/
theorem delay_us_ticking_exact (clock c0 d k fuel : Nat) (hrate : clock / 1000000 = 10)
    (hd : 10 * d < 4294967296) (hf : 10 * d < fuel) :
    ∃ n, delay_us clock (ticking c0) fuel d k = some n ∧ k < n ∧
      10 * d ≤ sub32 (ticking c0 n) (ticking c0 k) ∧
      (∀ j, k < j → j < n → sub32 (ticking c0 j) (ticking c0 k) < 10 * d) ∧
      n - k = max 1 (10 * d) ∧
      sub32 (ticking c0 n) (ticking c0 k) = max 1 (10 * d) ∧
      (1 ≤ d → sub32 (ticking c0 n) (ticking c0 k) = 10 * d) ∧
      (d = 0 → n = k + 1) := by
  have hticks : delay_ticks clock d = 10 * d := by
    unfold delay_ticks mul32
    rw [hrate, Nat.mul_comm]
    exact Nat.mod_eq_of_lt hd
  have hrun := delay_us_ticking clock c0 fuel d k (by rw [hticks]; omega)
  rw [hticks] at hrun
  have hsub : ∀ j, sub32 (ticking c0 (k + j)) (ticking c0 k) = j % 4294967296 :=
    sub32_ticking c0 k
  have hmax : max 1 (10 * d) % 4294967296 = max 1 (10 * d) := Nat.mod_eq_of_lt (by omega)
  refine ⟨k + max 1 (10 * d), hrun, by omega, ?_, ?_, by omega, ?_, ?_, by omega⟩
  · rw [hsub, hmax]; omega
  · intro j hkj hjn
    obtain ⟨i, rfl⟩ : ∃ i, j = k + i := ⟨j - k, by omega⟩
    rw [hsub, Nat.mod_eq_of_lt (by omega)]
    omega
  · rw [hsub, hmax]
  · intro h1
    rw [hsub, hmax]
    omega

/-- An instance of `delay_us_ticking_exact`: scenario 4, with the counter 5
ticks before its maximum and a wait of 2 microseconds. -/
theorem delay_us_ticking_exact_witness :
    (10000000 / 1000000 = 10 ∧ 10 * 2 < 4294967296 ∧ 10 * 2 < 21) ∧
      ∃ n, delay_us 10000000 (ticking 4294967290) 21 2 0 = some n ∧ 0 < n ∧
        10 * 2 ≤ sub32 (ticking 4294967290 n) (ticking 4294967290 0) ∧
        (∀ j, 0 < j → j < n → sub32 (ticking 4294967290 j) (ticking 4294967290 0) < 10 * 2) ∧
        n - 0 = max 1 (10 * 2) ∧
        sub32 (ticking 4294967290 n) (ticking 4294967290 0) = max 1 (10 * 2) ∧
        (1 ≤ 2 → sub32 (ticking 4294967290 n) (ticking 4294967290 0) = 10 * 2) ∧
        (2 = 0 → n = 0 + 1) :=
  ⟨⟨by decide, by decide, by decide⟩,
    delay_us_ticking_exact 10000000 4294967290 2 0 21 (by decide) (by decide) (by decide)⟩

/-! ## C9: the tick target of a 16-bit interval does not wrap -/

theorem delay_mem_steps_from (ds : List uint16_t) :
    ∀ (i us : Nat), Event.delay_us us ∈ steps_from i ds → ∃ d ∈ ds, us = d.val := by
  induction ds with
  | nil => intro i us h; simp [steps_from] at h
  | cons d ds ih =>
    intro i us h
    simp only [steps_from, List.mem_cons] at h
    rcases h with h | h | h
    · unfold gate_cmd at h; split at h <;> cases h
    · cases h; exact ⟨d, by simp, rfl⟩
    · obtain ⟨e, he, hus⟩ := ih (i + 1) us h
      exact ⟨e, by simp [he], hus⟩

/-- C9: for every 32-bit value of the core clock, `clock / 1000000` is at most
4294, and every call `delay_us(us)` in the trace of a call of `send_raw` that
returns, on every array, every `len` and every tick source, has a duration
`us ≤ 65535` whose 32-bit tick target `us * (clock / 1000000)` is the exact
product. -/
theorem send_raw_ticks_exact (cc1e clock : Nat) (cyccnt : Nat → Nat) (fuel : Nat)
    (raw : List uint16_t) (len : Int) (w w2 : World) (hclock : clock < 4294967296)
    (h : send_raw cc1e clock cyccnt fuel raw len w = some w2) :
    clock / 1000000 ≤ 4294 ∧
      ∃ t, w2.trace = w.trace ++ t ∧
        ∀ us, Event.delay_us us ∈ t →
          us ≤ 65535 ∧ us * (clock / 1000000) < 4294967296 ∧
            delay_ticks clock us = us * (clock / 1000000) := by
  obtain ⟨-, ht, -, -⟩ := send_raw_some cc1e clock cyccnt fuel raw len w w2 h
  refine ⟨by omega, steps_from 0 (raw.take len.toNat) ++ [Event.carrier_off], ?_, ?_⟩
  · simpa [List.append_assoc] using ht
  · intro us hmem
    simp only [List.mem_append, List.mem_singleton] at hmem
    rcases hmem with hmem | hmem
    · obtain ⟨d, -, hd⟩ := delay_mem_steps_from _ 0 us hmem
      have hus : us ≤ 65535 := by have := d.isLt; omega
      have hex := delay_ticks_exact clock us hclock hus
      refine ⟨hus, ?_, hex⟩
      rw [← hex]
      exact delay_ticks_lt clock us
    · cases hmem

/-- An instance of `send_raw_ticks_exact`: the longest interval, `65535`, at
the largest 32-bit clock; the counter advances 2 ^ 28 ticks per read. -/
theorem send_raw_ticks_exact_witness :
    4294967295 < 4294967296 ∧
      send_raw 1 4294967295 (fun i => (268435456 * i) % 4294967296) 2 [65535] 1
          (world0 regs0) = some longest_interval_world ∧
      4294967295 / 1000000 ≤ 4294 ∧
      ∃ t, longest_interval_world.trace = (world0 regs0).trace ++ t ∧
        ∀ us, Event.delay_us us ∈ t →
          us ≤ 65535 ∧ us * (4294967295 / 1000000) < 4294967296 ∧
            delay_ticks 4294967295 us = us * (4294967295 / 1000000) :=
  ⟨by decide, by decide,
    send_raw_ticks_exact 1 4294967295 (fun i => (268435456 * i) % 4294967296) 2 [65535] 1
      (world0 regs0) longest_interval_world (by decide) (by decide)⟩

/-! ## C5 and C10: concatenation of interval sequences -/

/-- The steps of a sequence depend on the parity of its first index only. -/
theorem steps_from_parity (ds : List uint16_t) :
    ∀ (i k : Nat), i % 2 = k % 2 → steps_from i ds = steps_from k ds := by
  induction ds with
  | nil => intro i k _; rfl
  | cons d ds ih =>
    intro i k h
    simp only [steps_from, gate_cmd, h]
    rw [ih (i + 1) (k + 1) (by omega)]

/-- The phases of a sequence depend on the parity of its first index only. -/
theorem phases_from_parity (cc1e : Nat) (ds : List uint16_t) :
    ∀ (i k : Nat), i % 2 = k % 2 → phases_from cc1e i ds = phases_from cc1e k ds := by
  induction ds with
  | nil => intro i k _; rfl
  | cons d ds ih =>
    intro i k h
    simp only [phases_from, h]
    rw [ih (i + 1) (k + 1) (by omega)]

/-- After a positive even number of iterations the gate is disabled and a
further `ir_carrier_off` changes no register. -/
theorem regs_after_loop_even (cc1e n : Nat) (r : Regs) (h0 : n ≠ 0) (h : n % 2 = 0) :
    gate_enabled cc1e (regs_after_loop cc1e n r) = false ∧
      ir_carrier_off cc1e (regs_after_loop cc1e n r) = regs_after_loop cc1e n r := by
  have h1 : ¬ n % 2 = 1 := by omega
  simp [regs_after_loop, h0, h1, gate_enabled_off, off_off]

/-- C5 as stated fails for `A` of odd length: with `A = [2]` and `B = [3]`,
`send_raw(A ++ B)` drives the interval 3 after a `carrier_off`, with the gate
disabled, while `send_raw(A)` followed by `send_raw(B)` drives it after a
`carrier_on`, with the gate enabled; so the trace of the concatenation is not
the sequential trace with the forced `carrier_off` of `send_raw(A)` taken out,
and the (gate state, duration) phases differ too. -/
theorem send_raw_append_odd_counterexample :
    send_raw 1 1000000 (ticking 0) 4 [2] 1 (world0 regs0) = some run_2 ∧
      send_raw 1 1000000 (ticking 0) 4 [3] 1 run_2 = some run_2_then_3 ∧
      send_raw 1 1000000 (ticking 0) 4 ([2] ++ [3]) 2 (world0 regs0) = some run_2_3 ∧
      run_2_3.trace ≠ run_2.trace.dropLast ++ run_2_then_3.trace.drop run_2.trace.length ∧
      run_2_3.phases = [(true, 2), (false, 3)] ∧
      run_2_then_3.phases = [(true, 2), (true, 3)] :=
  ⟨by decide, by decide, by decide, by decide, by decide, by decide⟩

/-- C5, amended: take a call `send_raw(A)` from `w` that returns `wA`, a call
`send_raw(B)` from `wA` that returns `wB`, and a call `send_raw(A ++ B)` from
`w` that returns `wAB`, on any tick sources. The sequential trace is the steps
of `A`, the forced `carrier_off`, then the trace of `B`. When the length of `A`
is even, the trace of `send_raw(A ++ B)` is the same with that one forced
`carrier_off` taken out, and, `A` being non-empty, that `carrier_off` changes
no register. When the length of `A` is odd, the trace of `send_raw(A ++ B)` is
the steps of `A`, then the steps of `B` numbered from an odd index, where
every interval of `B` gets the gate command opposite to the one `send_raw(B)`
gives it, then the forced `carrier_off`. On counters that advance one tick
per read the three calls return. -/
theorem send_raw_append_trace (cc1e clock : Nat) (A B : List uint16_t) (w : World) :
    (∀ (cycA cycB cycAB : Nat → Nat) (fuelA fuelB fuelAB : Nat) (wA wB wAB : World),
        send_raw cc1e clock cycA fuelA A A.length w = some wA →
        send_raw cc1e clock cycB fuelB B B.length wA = some wB →
        send_raw cc1e clock cycAB fuelAB (A ++ B) (A ++ B).length w = some wAB →
          wB.trace = w.trace ++ steps_from 0 A ++ [Event.carrier_off] ++ expected_trace B ∧
            (A.length % 2 = 0 →
              wAB.trace = w.trace ++ steps_from 0 A ++ expected_trace B ∧
                (A ≠ [] → ∀ w1, send_raw_loop cc1e clock cycA fuelA A A.length w = some w1 →
                  (call_carrier_off cc1e w1).regs = w1.regs)) ∧
            (A.length % 2 = 1 →
              wAB.trace =
                  w.trace ++ steps_from 0 A ++ steps_from 1 B ++ [Event.carrier_off] ∧
                ∀ (j : Nat) (h : j < B.length),
                  (steps_from 1 B)[2 * j]? =
                      some (if j % 2 = 0 then Event.carrier_off else Event.carrier_on) ∧
                    (steps_from 1 B)[2 * j + 1]? = some (Event.delay_us (B[j]).val))) ∧
    (∀ cA cB cAB : Nat, ∃ wA wB wAB,
        send_raw cc1e clock (ticking cA) 4294967296 A A.length w = some wA ∧
        send_raw cc1e clock (ticking cB) 4294967296 B B.length wA = some wB ∧
        send_raw cc1e clock (ticking cAB) 4294967296 (A ++ B) (A ++ B).length w =
          some wAB) := by
  refine ⟨?_, ?_⟩
  · intro cycA cycB cycAB fuelA fuelB fuelAB wA wB wAB hA hB hAB
    have tA := send_raw_trace_eq cc1e clock cycA fuelA A w wA hA
    have tB := send_raw_trace_eq cc1e clock cycB fuelB B wA wB hB
    have tAB := send_raw_trace_eq cc1e clock cycAB fuelAB (A ++ B) w wAB hAB
    simp only [expected_trace, steps_from_append, Nat.zero_add] at tAB
    refine ⟨by rw [tB, tA]; simp [expected_trace], ?_, ?_⟩
    · intro heven
      refine ⟨?_, ?_⟩
      · rw [tAB, steps_from_parity B A.length 0 (by omega)]
        simp [expected_trace]
      · intro hne w1 h1
        have hpos : A.length ≠ 0 := fun h => hne (List.length_eq_zero.mp h)
        obtain ⟨-, -, -, hr⟩ := loop_spec cc1e clock cycA fuelA A w _ w1 h1
        simp only [Int.toNat_ofNat] at hr
        simp only [call_carrier_off]
        rw [hr]
        exact (regs_after_loop_even cc1e A.length w.regs hpos heven).2
    · intro hodd
      refine ⟨?_, ?_⟩
      · rw [tAB, steps_from_parity B A.length 1 (by omega)]
        simp
      · intro j h
        obtain ⟨h1, h2⟩ := steps_from_getElem? B 1 j h
        refine ⟨?_, h2⟩
        rw [h1]
        unfold gate_cmd
        by_cases hj : j % 2 = 0
        · have : ¬ (1 + j) % 2 = 0 := by omega
          simp [hj, this]
        · have : (1 + j) % 2 = 0 := by omega
          simp [hj, this]
  · intro cA cB cAB
    obtain ⟨wA, hA⟩ := send_raw_returns cc1e clock cA A A.length (by simp) w
    obtain ⟨wB, hB⟩ := send_raw_returns cc1e clock cB B B.length (by simp) wA
    obtain ⟨wAB, hAB⟩ :=
      send_raw_returns cc1e clock cAB (A ++ B) (A ++ B).length (by simp) w
    exact ⟨wA, wB, wAB, hA, hB, hAB⟩

/-- Instances of `send_raw_append_trace`: `A = [2, 3]` of even length
with `B = [4, 1]`, and `A = [2]` of odd length with `B = [3]`. -/
theorem send_raw_append_trace_witness :
    (send_raw 1 1000000 (ticking 0) 5 [2, 3] 2 (world0 regs0) = some run_2_3 ∧
        send_raw 1 1000000 (ticking 0) 5 [4, 1] 2 run_2_3 = some run_2_3_then_4_1 ∧
        send_raw 1 1000000 (ticking 0) 5 ([2, 3] ++ [4, 1]) 4 (world0 regs0) = some run_2_3_4_1 ∧
        run_2_3_4_1.trace = [] ++ steps_from 0 [2, 3] ++ expected_trace [4, 1]) ∧
      (send_raw 1 1000000 (ticking 0) 4 [2] 1 (world0 regs0) = some run_2 ∧
        send_raw 1 1000000 (ticking 0) 4 [3] 1 run_2 = some run_2_then_3 ∧
        send_raw 1 1000000 (ticking 0) 4 ([2] ++ [3]) 2 (world0 regs0) = some run_2_3 ∧
        run_2_3.trace = [] ++ steps_from 0 [2] ++ steps_from 1 [3] ++ [Event.carrier_off]) :=
  ⟨⟨by decide, by decide, by decide,
      (((send_raw_append_trace 1 1000000 [2, 3] [4, 1] (world0 regs0)).1 (ticking 0) (ticking 0)
        (ticking 0) 5 5 5 run_2_3 run_2_3_then_4_1 run_2_3_4_1 (by decide) (by decide)
        (by decide)).2.1 (by decide)).1⟩,
    ⟨by decide, by decide, by decide,
      (((send_raw_append_trace 1 1000000 [2] [3] (world0 regs0)).1 (ticking 0) (ticking 0)
        (ticking 0) 4 4 4 run_2 run_2_then_3 run_2_3 (by decide) (by decide)
        (by decide)).2.2 (by decide)).1⟩⟩

/-- C10 as stated fails for the empty `A`: from the state `ir_timer_init`
leaves (`TIM1->CCER = TIM_CCER_CC1E`, gate enabled) the loop of `send_raw([])`
ends at once with the gate still enabled, so the forced `carrier_off` after `A`
does not find the gate already off: it clears the bit. -/
theorem send_raw_append_empty_counterexample :
    ([] : List uint16_t).length % 2 = 0 ∧
      send_raw_loop 1 80000000 (ticking 0) 4 [] 0 (world0 (regs_ccer 1)) =
        some (world0 (regs_ccer 1)) ∧
      gate_enabled 1 (world0 (regs_ccer 1)).regs = true ∧
      gate_enabled 1 (call_carrier_off 1 (world0 (regs_ccer 1))).regs = false ∧
      send_raw 1 80000000 (ticking 0) 4 [] 0 (world0 (regs_ccer 1)) =
        some (call_carrier_off 1 (world0 (regs_ccer 1))) :=
  ⟨by decide, by decide, by decide, by decide, by decide⟩

/-- C10, amended: let `A` have even length, and take a call `send_raw(A)` from
`w` that returns `wA`, a call `send_raw(B)` from `wA` that returns `wB`, and a
call `send_raw(A ++ B)` from `w` that returns `wAB`, on any tick sources. Then
the phases of `send_raw(A ++ B)` are the phases of `send_raw(A)` followed by
the phases of `send_raw(B)`, every interval of `B` is driven with the same gate
state in both runs, and the final registers agree; and when `A` is non-empty,
or the gate is disabled in `w`, the forced `carrier_off` after `A` finds the
gate already disabled. On counters that advance one tick per read the three
calls return. -/
theorem send_raw_append_phases (cc1e clock : Nat) (A B : List uint16_t) (w : World)
    (heven : A.length % 2 = 0) :
    (∀ (cycA cycB cycAB : Nat → Nat) (fuelA fuelB fuelAB : Nat) (wA wB wAB : World),
        send_raw cc1e clock cycA fuelA A A.length w = some wA →
        send_raw cc1e clock cycB fuelB B B.length wA = some wB →
        send_raw cc1e clock cycAB fuelAB (A ++ B) (A ++ B).length w = some wAB →
          wA.phases = w.phases ++ phases_from cc1e 0 A ∧
            wB.phases = wA.phases ++ phases_from cc1e 0 B ∧
            wAB.phases = w.phases ++ phases_from cc1e 0 A ++ phases_from cc1e 0 B ∧
            wAB.phases = wB.phases ∧ wAB.regs = wB.regs ∧
            ((A ≠ [] ∨ gate_enabled cc1e w.regs = false) →
              ∀ w1, send_raw_loop cc1e clock cycA fuelA A A.length w = some w1 →
                gate_enabled cc1e w1.regs = false)) ∧
    (∀ cA cB cAB : Nat, ∃ wA wB wAB,
        send_raw cc1e clock (ticking cA) 4294967296 A A.length w = some wA ∧
        send_raw cc1e clock (ticking cB) 4294967296 B B.length wA = some wB ∧
        send_raw cc1e clock (ticking cAB) 4294967296 (A ++ B) (A ++ B).length w =
          some wAB) := by
  refine ⟨?_, ?_⟩
  · intro cycA cycB cycAB fuelA fuelB fuelAB wA wB wAB hA hB hAB
    obtain ⟨-, -, pA, rA⟩ := send_raw_some cc1e clock cycA fuelA A _ w wA hA
    obtain ⟨-, -, pB, rB⟩ := send_raw_some cc1e clock cycB fuelB B _ wA wB hB
    obtain ⟨-, -, pAB, rAB⟩ := send_raw_some cc1e clock cycAB fuelAB (A ++ B) _ w wAB hAB
    simp only [Int.toNat_ofNat, List.take_length] at pA pB pAB
    rw [phases_from_append, Nat.zero_add, phases_from_parity cc1e B A.length 0 (by omega)]
      at pAB
    refine ⟨pA, pB, by rw [pAB, List.append_assoc], ?_, ?_, ?_⟩
    · rw [pAB, pB, pA, List.append_assoc]
    · rw [rAB, rB, rA, off_off]
    · intro hcase w1 h1
      obtain ⟨-, -, -, hr⟩ := loop_spec cc1e clock cycA fuelA A w _ w1 h1
      simp only [Int.toNat_ofNat] at hr
      rw [hr]
      by_cases hpos : A.length = 0
      · rcases hcase with hne | hoff
        · exact absurd (List.length_eq_zero.mp hpos) hne
        · simpa [regs_after_loop, hpos] using hoff
      · exact (regs_after_loop_even cc1e A.length w.regs hpos heven).1
  · intro cA cB cAB
    obtain ⟨wA, hA⟩ := send_raw_returns cc1e clock cA A A.length (by simp) w
    obtain ⟨wB, hB⟩ := send_raw_returns cc1e clock cB B B.length (by simp) wA
    obtain ⟨wAB, hAB⟩ :=
      send_raw_returns cc1e clock cAB (A ++ B) (A ++ B).length (by simp) w
    exact ⟨wA, wB, wAB, hA, hB, hAB⟩

/-- An instance of `send_raw_append_phases`: `A = [2, 3]`, `B = [4, 1]`. -/
theorem send_raw_append_phases_witness :
    ([2, 3] : List uint16_t).length % 2 = 0 ∧
      send_raw 1 1000000 (ticking 0) 5 [2, 3] 2 (world0 regs0) = some run_2_3 ∧
      send_raw 1 1000000 (ticking 0) 5 [4, 1] 2 run_2_3 = some run_2_3_then_4_1 ∧
      send_raw 1 1000000 (ticking 0) 5 ([2, 3] ++ [4, 1]) 4 (world0 regs0) = some run_2_3_4_1 ∧
      run_2_3_4_1.phases = run_2_3_then_4_1.phases :=
  ⟨by decide, by decide, by decide, by decide,
    ((send_raw_append_phases 1 1000000 [2, 3] [4, 1] (world0 regs0) (by decide)).1 (ticking 0)
      (ticking 0) (ticking 0) 5 5 5 run_2_3 run_2_3_then_4_1 run_2_3_4_1 (by decide) (by decide)
      (by decide)).2.2.2.1⟩

end WristbandIR
